import Mathlib

/-!
# Verification of the streaming silence detector (`audio/silence.go`)

Shallow embedding of package `astiaudio`'s `SilenceDetector` in Lean 4.

Modelling decisions, documented once here:

* `time.Duration` values are 64-bit nanosecond counts; they are embedded as
  `Int`.  The only arithmetic the source performs on them is
  `time.Duration(silencesCount) * StepDuration >= SilenceMinDuration`, which
  for the window counts and durations of interest never overflows, so plain
  `Int` arithmetic is faithful.
* Raw samples are Go `int32` values.  The detector never performs arithmetic
  on samples (it only appends, slices and copies them), so they are embedded
  as `Int`.
* Audio levels are Go `float64` values produced by the external function
  `AudioLevel` (declared outside this file's source; the specification leaves
  it abstract: any deterministic pure function of a window).  The detector
  only compares levels with `<` against the caller's threshold, so levels are
  embedded as `ℚ` and the external level function is a parameter
  `level : List Int → ℚ` of every operation that needs it.
* `audioLevelAnalysisSamplesCount` (the window size) is computed by the
  source as `int(math.Floor(float64(sampleRate) * StepDuration.Seconds()))`.
  The embedding takes the resulting integer as an explicit argument of `Add`
  (the claims quantify over it directly); `audioLevelAnalysisSamplesCount`
  below additionally models the computation itself with exact integer
  arithmetic, which agrees with the `float64` computation at the concrete
  parameters used by the specification's scenarios (e.g. 1000 Hz × 30 ms).
  A negative window size (negative sample rate) makes the Go code panic on a
  negative slice index; the embedding takes the window size as a `Nat`.
  For window size 0 the Go loop bound `int(math.Floor(p / 0.0))` is an
  `Inf`/`NaN`-to-`int` conversion whose value is implementation-dependent;
  with the gc toolchain it is the minimal `int64`, so the loop body never
  runs, which is what integer division by zero (`= 0`) gives below.
* Go reslicing `s[k:]`/`s[:k]` panics when `k` is out of range, whereas
  `List.drop`/`List.take` clamp.  In the regimes the claims are about
  (window size ≥ 1, constant across calls, positive configured durations)
  every index the source produces is in range — the theorems below carry the
  corresponding hypotheses — so the clamping never diverges from the source
  there.
-/

/-- Configuration of the silence detector.  Both fields are `time.Duration`
nanosecond counts. -/
structure SilenceDetectorConfiguration where
  SilenceMinDuration : Int
  StepDuration : Int
deriving Repr, DecidableEq

/-- The silence detector: the derived per-window levels, the configuration
and the buffered raw samples. -/
structure SilenceDetector where
  audioLevels : List ℚ
  c : SilenceDetectorConfiguration
  samples : List Int
deriving Repr, DecidableEq

/-- `Reset` replaces both buffers with empty sequences. -/
def SilenceDetector.Reset (d : SilenceDetector) : SilenceDetector :=
  { d with audioLevels := [], samples := [] }

/-- `NewSilenceDetector` resets the buffers and applies the documented
defaults (1 s, 30 ms) to zero-valued configuration fields. -/
def NewSilenceDetector (c : SilenceDetectorConfiguration) : SilenceDetector :=
  let d : SilenceDetector := SilenceDetector.Reset { audioLevels := [], c := c, samples := [] }
  let c₁ :=
    if d.c.SilenceMinDuration = 0 then
      { d.c with SilenceMinDuration := 1000000000 } else d.c
  let c₂ :=
    if c₁.StepDuration = 0 then
      { c₁ with StepDuration := 30000000 } else c₁
  { d with c := c₂ }

/-- The number of samples per audio-level analysis, i.e. the window size:
the source computes `int(math.Floor(float64(sampleRate) *
d.c.StepDuration.Seconds()))`; in exact arithmetic that is the floor of
`sampleRate * stepDuration / 10^9` (`Seconds` divides the nanosecond count
by `10^9`).  The two agree at the concrete rates and durations the
specification uses (for 1000 Hz and 30 ms the `float64` product rounds to
exactly `30.0`). -/
def audioLevelAnalysisSamplesCount (sampleRate : Int) (stepDuration : Int) : Int :=
  sampleRate * stepDuration / 1000000000

/-- State threaded through the middle-silence scan of `Add`: the two buffers
plus the emitted segments. -/
structure MiddleState where
  audioLevels : List ℚ
  samples : List Int
  validSamples : List (List Int)
deriving Repr, DecidableEq

/-- `processSilencesInTheMiddle`: when the just-ended run of `silencesCount`
silent windows lasts at least `SilenceMinDuration`, emit the samples before
the run's first window (`i - silencesCount`) as a segment and drop them from
both buffers; otherwise do nothing. -/
def processSilencesInTheMiddle (c : SilenceDetectorConfiguration)
    (audioLevelAnalysisSamplesCount i silencesCount : Nat)
    (st : MiddleState) : MiddleState :=
  if (silencesCount : Int) * c.StepDuration ≥ c.SilenceMinDuration then
    let e := (i - silencesCount) * audioLevelAnalysisSamplesCount
    { audioLevels := st.audioLevels.drop (i - silencesCount)
      samples := st.samples.drop e
      validSamples := st.validSamples ++ [st.samples.take e] }
  else st

/-- The `for i = 1; i < len(levels); i++` scan of `Add`, followed by the
final `processSilencesInTheMiddle` call once `i` reaches (or exceeds) the
current length.  The loop index advances by one per iteration and the level
buffer never grows during the scan, so `st.audioLevels.length` iterations
always suffice; `fuel` makes the recursion structural (the zero-fuel branch
is unreachable for the fuel `Add` supplies, see `middleLoop_congr_fuel`). -/
def middleLoop (c : SilenceDetectorConfiguration) (silenceMaxAudioLevel : ℚ)
    (w : Nat) : Nat → Nat → Nat → MiddleState → MiddleState
  | fuel, i, silencesCount, st =>
    if h : i < st.audioLevels.length then
      match fuel with
      | 0 => st
      | f + 1 =>
        if st.audioLevels.get ⟨i, h⟩ < silenceMaxAudioLevel then
          middleLoop c silenceMaxAudioLevel w f (i + 1) (silencesCount + 1) st
        else
          middleLoop c silenceMaxAudioLevel w f (i + 1) 0
            (processSilencesInTheMiddle c w i silencesCount st)
    else
      processSilencesInTheMiddle c w i silencesCount st

/-- The audio-level computation loop of `Add`: starting at offset
`processed`, compute `n` consecutive window levels. -/
def computeAudioLevels (level : List Int → ℚ) (samples : List Int) (w : Nat) :
    Nat → Nat → List ℚ
  | _, 0 => []
  | processed, n + 1 =>
      level ((samples.drop processed).take w) ::
        computeAudioLevels level samples w (processed + w) n

/-- `len(*d.audioLevels) * audioLevelAnalysisSamplesCount`. -/
def processedSamplesCount (d : SilenceDetector) (w : Nat) : Nat :=
  d.audioLevels.length * w

/-- `len(*d.samples) - processedSamplesCount` after the new chunk has been
appended (`Int`-valued: it is negative when the window size grew between
calls). -/
def processableSamplesCount (d : SilenceDetector) (chunk : List Int) (w : Nat) : Int :=
  ((d.samples ++ chunk).length : Int) - processedSamplesCount d w

/-- The level buffer after the computation loop of `Add`: the stored levels
extended by one level per additional full processable window. -/
def levelsAfterCompute (level : List Int → ℚ) (d : SilenceDetector)
    (chunk : List Int) (w : Nat) : List ℚ :=
  d.audioLevels ++
    computeAudioLevels level (d.samples ++ chunk) w (processedSamplesCount d w)
      ((processableSamplesCount d chunk w / (w : Int)).toNat)

/-- The `silencesCount` scan at the start of the level buffer: the number of
consecutive leading levels strictly below the threshold. -/
def silencesAtStart (silenceMaxAudioLevel : ℚ) (levels : List ℚ) : Nat :=
  (levels.takeWhile (fun l => decide (l < silenceMaxAudioLevel))).length

/-- The level buffer after the "keep 1 silence at the start" reslice
(`audioLevels = audioLevels[silencesCount-1:]` when `silencesCount > 1`). -/
def levelsAfterPrune (level : List Int → ℚ) (d : SilenceDetector)
    (chunk : List Int) (w : Nat) (silenceMaxAudioLevel : ℚ) : List ℚ :=
  if silencesAtStart silenceMaxAudioLevel (levelsAfterCompute level d chunk w) > 1 then
    (levelsAfterCompute level d chunk w).drop
      (silencesAtStart silenceMaxAudioLevel (levelsAfterCompute level d chunk w) - 1)
  else levelsAfterCompute level d chunk w

/-- The sample buffer after the "keep 1 silence at the start" reslice
(`samples = samples[(silencesCount-1)*w:]` when `silencesCount > 1`). -/
def samplesAfterPrune (level : List Int → ℚ) (d : SilenceDetector)
    (chunk : List Int) (w : Nat) (silenceMaxAudioLevel : ℚ) : List Int :=
  if silencesAtStart silenceMaxAudioLevel (levelsAfterCompute level d chunk w) > 1 then
    (d.samples ++ chunk).drop
      ((silencesAtStart silenceMaxAudioLevel (levelsAfterCompute level d chunk w) - 1) * w)
  else d.samples ++ chunk

/-- The samples the "keep 1 silence at the start" reslice discards (they are
dropped, never emitted). -/
def prunedSamples (level : List Int → ℚ) (d : SilenceDetector)
    (chunk : List Int) (w : Nat) (silenceMaxAudioLevel : ℚ) : List Int :=
  if silencesAtStart silenceMaxAudioLevel (levelsAfterCompute level d chunk w) > 1 then
    (d.samples ++ chunk).take
      ((silencesAtStart silenceMaxAudioLevel (levelsAfterCompute level d chunk w) - 1) * w)
  else []

/-- One `Add` call.  Returns the updated detector, the emitted
`validSamples`, and — as an extra observation needed by the conservation
statements — the samples discarded by the keep-one-leading-silence pruning
(the source discards them by reslicing; nothing else in the call ever
discards samples without emitting them). -/
def SilenceDetector.AddFull (level : List Int → ℚ) (d : SilenceDetector)
    (samples : List Int) (audioLevelAnalysisSamplesCount : Nat)
    (silenceMaxAudioLevel : ℚ) :
    SilenceDetector × List (List Int) × List Int :=
  let w := audioLevelAnalysisSamplesCount
  if processableSamplesCount d samples w < (w : Int) then
    ({ d with samples := d.samples ++ samples }, [], [])
  else
    let levels₂ := levelsAfterPrune level d samples w silenceMaxAudioLevel
    let samples₂ := samplesAfterPrune level d samples w silenceMaxAudioLevel
    if levels₂.length ≤ 1 then
      ({ d with audioLevels := levels₂, samples := samples₂ }, [],
        prunedSamples level d samples w silenceMaxAudioLevel)
    else
      let st := middleLoop d.c silenceMaxAudioLevel w levels₂.length 1 0
        ⟨levels₂, samples₂, []⟩
      ({ d with audioLevels := st.audioLevels, samples := st.samples },
        st.validSamples, prunedSamples level d samples w silenceMaxAudioLevel)

/-- `Add` with the source's interface: the updated detector and the emitted
`validSamples`. -/
def SilenceDetector.Add (level : List Int → ℚ) (d : SilenceDetector)
    (samples : List Int) (audioLevelAnalysisSamplesCount : Nat)
    (silenceMaxAudioLevel : ℚ) : SilenceDetector × List (List Int) :=
  let r := d.AddFull level samples audioLevelAnalysisSamplesCount silenceMaxAudioLevel
  (r.1, r.2.1)

/-- A sequence of `Add` calls sharing one window size (i.e. one sample
rate), each with its own chunk and threshold; returns the final detector and
all emitted segments in order. -/
def runAdds (level : List Int → ℚ) (w : Nat) :
    SilenceDetector → List (List Int × ℚ) → SilenceDetector × List (List Int)
  | d, [] => (d, [])
  | d, (chunk, θ) :: rest =>
      let r := d.Add level chunk w θ
      let t := runAdds level w r.1 rest
      (t.1, r.2 ++ t.2)

/-- Like `runAdds` but recording, per call, the samples dropped by
leading-silence pruning together with the segments the call emitted. -/
def runAddsFull (level : List Int → ℚ) (w : Nat) :
    SilenceDetector → List (List Int × ℚ) →
      SilenceDetector × List (List Int × List (List Int))
  | d, [] => (d, [])
  | d, (chunk, θ) :: rest =>
      let r := d.AddFull level chunk w θ
      let t := runAddsFull level w r.1 rest
      (t.1, (r.2.2, r.2.1) :: t.2)

/-! ## Specification-side predicates -/

/-- The levels `L` and the samples `S` are in lock-step for window size `w`:
there are at least `L.length` whole windows of samples, and the `i`-th
stored level is the external level of the `i`-th window. -/
def LevelsMatch (level : List Int → ℚ) (w : Nat) (L : List ℚ) (S : List Int) : Prop :=
  L.length * w ≤ S.length ∧
  ∀ (i : Nat) (h : i < L.length), L.get ⟨i, h⟩ = level ((S.drop (i * w)).take w)

/-- `s` consists of one or more whole analysis windows. -/
def SegOK (w : Nat) (s : List Int) : Prop := ∃ m, 1 ≤ m ∧ s.length = m * w

/-! ## Concrete fixtures used by the scenario claims

The external level function is out of the detector's scope; the fixtures
instantiate it with the sum of the window's samples, a deterministic pure
function whose output is comparable with `<`, as the specification
requires.  A window of ones is "loud" (level `w ≥ 1`) and a window of
zeros is "silent" (level `0 < 1`) for the threshold `1`. -/

/-- A concrete external level function: the sum of the window. -/
def sumLevel (s : List Int) : ℚ := ((s.sum : Int) : ℚ)

/-- A non-silent window for window size `w` (each sample is `1`). -/
def loudWindow (w : Nat) : List Int := List.replicate w 1

/-- A silent window for window size `w` (each sample is `0`). -/
def silentWindow (w : Nat) : List Int := List.replicate w 0

/-- Windows for the minimum-duration-gate scenario: `a` non-silent windows,
a run of `n` silent windows, then one non-silent window ending the run. -/
def sandwichWindows (w a n : Nat) : List (List Int) :=
  List.replicate a (loudWindow w) ++ List.replicate n (silentWindow w) ++ [loudWindow w]

/-- The samples of `sandwichWindows`. -/
def sandwichChunk (w a n : Nat) : List Int := (sandwichWindows w a n).flatten

/-- Windows for the gate scenario whose silence run ends at the end of the
buffer: `a` non-silent windows then `n` silent windows. -/
def tailRunWindows (w a n : Nat) : List (List Int) :=
  List.replicate a (loudWindow w) ++ List.replicate n (silentWindow w)

/-- The samples of `tailRunWindows`. -/
def tailRunChunk (w a n : Nat) : List Int := (tailRunWindows w a n).flatten

/-- A 90 ms minimum-silence / 30 ms step configuration (three windows of
silence confirm a split). -/
def gateConfig : SilenceDetectorConfiguration := ⟨90000000, 30000000⟩

/-- Nine windows of size 2: one loud window, a confirmed silence run of
three windows, a loud window, a second confirmed silence run of three
windows, and a final loud window. -/
def twoRunChunk : List Int :=
  (List.replicate 1 (loudWindow 2) ++ List.replicate 3 (silentWindow 2) ++
    [loudWindow 2] ++ List.replicate 3 (silentWindow 2) ++ [loudWindow 2]).flatten

/-- The specification's ten-window scenario at 1000 Hz: windows 0–1 loud
(sample value 100), windows 2–4 silent, windows 5–9 loud. -/
def c4chunk : List Int :=
  List.replicate 60 100 ++ List.replicate 90 0 ++ List.replicate 150 100

/-- The detector state after feeding `twoRunChunk` in one call (window size
2, threshold 1): its buffer starts with the three silent windows of the
first confirmed run followed by buffered loud and silent windows. -/
def twoRunDetector : SilenceDetector :=
  ((NewSilenceDetector gateConfig).Add sumLevel twoRunChunk 2 1).1

/-- The specification's leading-silence scenario at window size 2: five
silent windows followed by one loud window. -/
def c5chunk : List Int := (List.replicate 5 (silentWindow 2) ++ [loudWindow 2]).flatten

/-! ## Helper lemmas about `takeWhile` (the leading-silence scan) -/

theorem takeWhile_length_le {α : Type} (p : α → Bool) :
    ∀ L : List α, (L.takeWhile p).length ≤ L.length := by
  intro L
  induction L with
  | nil => simp
  | cons a l ih =>
      by_cases hp : p a
      · simpa [List.takeWhile_cons, hp] using ih
      · simp [List.takeWhile_cons, hp]

theorem takeWhile_get_sat {α : Type} (p : α → Bool) :
    ∀ (L : List α) (i : Nat) (h : i < L.length),
      i < (L.takeWhile p).length → p (L.get ⟨i, h⟩) = true := by
  intro L
  induction L with
  | nil => intro i h; simp at h
  | cons a l ih =>
      intro i h hlt
      by_cases hp : p a
      · cases i with
        | zero => simpa using hp
        | succ j =>
            simp only [List.takeWhile_cons, hp, if_true, List.length_cons,
              Nat.succ_lt_succ_iff] at hlt
            exact ih j (by simpa using h) hlt
      · simp [List.takeWhile_cons, hp] at hlt

theorem takeWhile_get_max {α : Type} (p : α → Bool) :
    ∀ (L : List α) (h : (L.takeWhile p).length < L.length),
      p (L.get ⟨(L.takeWhile p).length, h⟩) = false := by
  intro L
  induction L with
  | nil => intro h; simp at h
  | cons a l ih =>
      intro h
      by_cases hp : p a
      · have hlen : ((a :: l).takeWhile p).length = (l.takeWhile p).length + 1 := by
          simp [List.takeWhile_cons, hp]
        have h' : (l.takeWhile p).length < l.length := by
          simp only [hlen, List.length_cons, Nat.succ_lt_succ_iff] at h
          exact h
        have := ih h'
        simp only [List.get_eq_getElem] at this ⊢
        simpa [hlen] using this
      · simp [List.takeWhile_cons, hp]

/-! ## The audio-level computation loop -/

theorem computeAudioLevels_length (level : List Int → ℚ) (s : List Int) (w : Nat) :
    ∀ (n processed : Nat), (computeAudioLevels level s w processed n).length = n := by
  intro n
  induction n with
  | zero => intro processed; rfl
  | succ m ih => intro processed; simp [computeAudioLevels, ih]

theorem computeAudioLevels_get (level : List Int → ℚ) (s : List Int) (w : Nat) :
    ∀ (n processed t : Nat) (h : t < (computeAudioLevels level s w processed n).length),
      (computeAudioLevels level s w processed n).get ⟨t, h⟩ =
        level ((s.drop (processed + t * w)).take w) := by
  intro n
  induction n with
  | zero => intro processed t h; simp [computeAudioLevels_length] at h
  | succ m ih =>
      intro processed t h
      cases t with
      | zero => simp [computeAudioLevels]
      | succ u =>
          have h' : u < (computeAudioLevels level s w (processed + w) m).length := by
            simp [computeAudioLevels_length] at h ⊢; omega
          have := ih (processed + w) u h'
          simp only [computeAudioLevels, List.get_eq_getElem, List.getElem_cons_succ]
          simp only [List.get_eq_getElem] at this
          rw [this]
          have harith : processed + w + u * w = processed + (u + 1) * w := by ring
          rw [harith]

/-! ## The lock-step relation between the two buffers -/

theorem take_drop_append (S T : List Int) (k w : Nat) (h : k + w ≤ S.length) :
    ((S ++ T).drop k).take w = (S.drop k).take w := by
  rw [List.drop_append_eq_append_drop]
  rw [List.take_append_of_le_length (by simp; omega)]

theorem LevelsMatch_append (level : List Int → ℚ) (w : Nat) (L : List ℚ)
    (S T : List Int) (h : LevelsMatch level w L S) :
    LevelsMatch level w L (S ++ T) := by
  obtain ⟨hlen, hget⟩ := h
  refine ⟨by simp; omega, ?_⟩
  intro i hi
  rw [hget i hi]
  have hwin : i * w + w ≤ L.length * w := by
    have hstep : (i + 1) * w = i * w + w := by ring
    have hmul : (i + 1) * w ≤ L.length * w := Nat.mul_le_mul_right w hi
    omega
  rw [take_drop_append S T (i * w) w (by omega)]

theorem LevelsMatch_drop (level : List Int → ℚ) (w : Nat) (L : List ℚ)
    (S : List Int) (h : LevelsMatch level w L S) (j : Nat) :
    LevelsMatch level w (L.drop j) (S.drop (j * w)) := by
  obtain ⟨hlen, hget⟩ := h
  constructor
  · simp only [List.length_drop]
    have := Nat.sub_mul L.length j w
    omega
  · intro i hi
    have hi' : j + i < L.length := by simp at hi; omega
    have hg : (L.drop j).get ⟨i, hi⟩ = L.get ⟨j + i, hi'⟩ := by
      simp [List.get_eq_getElem, List.getElem_drop]
    rw [hg, hget (j + i) hi', List.drop_drop]
    have harith : (j + i) * w = j * w + i * w := by ring
    rw [harith]

theorem levelsAfterCompute_match (level : List Int → ℚ) (d : SilenceDetector)
    (chunk : List Int) (w : Nat)
    (h : LevelsMatch level w d.audioLevels d.samples) :
    LevelsMatch level w (levelsAfterCompute level d chunk w) (d.samples ++ chunk) := by
  obtain ⟨hlen, hget⟩ := h
  have hmatch := LevelsMatch_append level w d.audioLevels d.samples chunk ⟨hlen, hget⟩
  set S := d.samples ++ chunk with hS
  set n := ((processableSamplesCount d chunk w / (w : Int))).toNat with hn
  have hproc : processedSamplesCount d w = d.audioLevels.length * w := rfl
  have hnw : n * w ≤ S.length - d.audioLevels.length * w := by
    by_cases hw0 : w = 0
    · subst hw0; simp
    · have hwpos : (0 : Int) < (w : Int) := by
        exact_mod_cast Nat.pos_of_ne_zero hw0
      have hple : processableSamplesCount d chunk w =
          (S.length : Int) - d.audioLevels.length * w := by
        simp [processableSamplesCount, processedSamplesCount, hS]
      by_cases hneg : processableSamplesCount d chunk w < 0
      · have : n = 0 := by
          rw [hn, Int.toNat_eq_zero]
          exact le_of_lt (Int.ediv_neg' hneg hwpos)
        simp [this]
      · push_neg at hneg
        have hdivle : (processableSamplesCount d chunk w / (w : Int)) * w ≤
            processableSamplesCount d chunk w := Int.ediv_mul_le _ (by omega)
        have hSlen : d.audioLevels.length * w ≤ S.length := by
          have : S.length = d.samples.length + chunk.length := by simp [hS]
          omega
        have hdivnn : 0 ≤ processableSamplesCount d chunk w / (w : Int) :=
          Int.ediv_nonneg hneg (by omega)
        have : (n : Int) * w ≤ processableSamplesCount d chunk w := by
          rw [hn, Int.toNat_of_nonneg hdivnn]; exact hdivle
        rw [hple] at this
        have := this
        omega
  constructor
  · simp only [levelsAfterCompute, List.length_append,
      computeAudioLevels_length, ← hn, ← hproc]
    have hSlen : d.audioLevels.length * w ≤ S.length := by
      have : S.length = d.samples.length + chunk.length := by simp [hS]
      omega
    have := Nat.add_mul d.audioLevels.length n w
    omega
  · intro i hi
    by_cases hcase : i < d.audioLevels.length
    · have hg : (levelsAfterCompute level d chunk w).get ⟨i, hi⟩ =
          d.audioLevels.get ⟨i, hcase⟩ := by
        simp [levelsAfterCompute, List.get_eq_getElem, List.getElem_append_left hcase]
      rw [hg]
      exact hmatch.2 i hcase
    · push_neg at hcase
      have hi' : i - d.audioLevels.length <
          (computeAudioLevels level S w (processedSamplesCount d w) n).length := by
        simp only [levelsAfterCompute, List.length_append] at hi
        simp only [computeAudioLevels_length] at hi ⊢
        omega
      have hg : (levelsAfterCompute level d chunk w).get ⟨i, hi⟩ =
          (computeAudioLevels level S w (processedSamplesCount d w) n).get
            ⟨i - d.audioLevels.length, hi'⟩ := by
        simp only [levelsAfterCompute, List.get_eq_getElem]
        rw [List.getElem_append_right hcase]
      rw [hg, computeAudioLevels_get]
      have harith : processedSamplesCount d w + (i - d.audioLevels.length) * w = i * w := by
        have := Nat.sub_mul i d.audioLevels.length w
        have hmul : d.audioLevels.length * w ≤ i * w := Nat.mul_le_mul_right w hcase
        simp only [processedSamplesCount]
        omega
      rw [harith]

/-! ## Lemmas about `processSilencesInTheMiddle` -/

theorem processSilencesInTheMiddle_length_le (c : SilenceDetectorConfiguration)
    (w i sc : Nat) (st : MiddleState) :
    (processSilencesInTheMiddle c w i sc st).audioLevels.length ≤
      st.audioLevels.length := by
  unfold processSilencesInTheMiddle
  split <;> simp

theorem processSilencesInTheMiddle_conservation (c : SilenceDetectorConfiguration)
    (w i sc : Nat) (st : MiddleState) :
    (processSilencesInTheMiddle c w i sc st).validSamples.flatten ++
        (processSilencesInTheMiddle c w i sc st).samples =
      st.validSamples.flatten ++ st.samples := by
  unfold processSilencesInTheMiddle
  split
  · simp only [List.flatten_append, List.flatten_cons, List.flatten_nil,
      List.append_nil, List.append_assoc, List.take_append_drop]
  · rfl

theorem processSilencesInTheMiddle_match (level : List Int → ℚ)
    (c : SilenceDetectorConfiguration) (w i sc : Nat) (st : MiddleState)
    (h : LevelsMatch level w st.audioLevels st.samples) :
    LevelsMatch level w (processSilencesInTheMiddle c w i sc st).audioLevels
      (processSilencesInTheMiddle c w i sc st).samples := by
  unfold processSilencesInTheMiddle
  split
  · exact LevelsMatch_drop level w _ _ h (i - sc)
  · exact h

theorem processSilencesInTheMiddle_zero (c : SilenceDetectorConfiguration)
    (w i : Nat) (st : MiddleState) (hmin : 0 < c.SilenceMinDuration) :
    processSilencesInTheMiddle c w i 0 st = st := by
  unfold processSilencesInTheMiddle
  rw [if_neg]
  simp only [Nat.cast_zero, zero_mul]
  omega

/-! ## Unfolding equations and basic facts for `middleLoop` -/

theorem middleLoop_at_end (c : SilenceDetectorConfiguration) (θ : ℚ)
    (w fuel i sc : Nat) (st : MiddleState) (h : ¬ i < st.audioLevels.length) :
    middleLoop c θ w fuel i sc st = processSilencesInTheMiddle c w i sc st := by
  rw [middleLoop]
  exact dif_neg h

theorem middleLoop_zero_fuel (c : SilenceDetectorConfiguration) (θ : ℚ)
    (w i sc : Nat) (st : MiddleState) (h : i < st.audioLevels.length) :
    middleLoop c θ w 0 i sc st = st := by
  rw [middleLoop]
  exact dif_pos h

theorem middleLoop_silent (c : SilenceDetectorConfiguration) (θ : ℚ)
    (w f i sc : Nat) (st : MiddleState) (h : i < st.audioLevels.length)
    (hs : st.audioLevels.get ⟨i, h⟩ < θ) :
    middleLoop c θ w (f + 1) i sc st =
      middleLoop c θ w f (i + 1) (sc + 1) st := by
  rw [middleLoop, dif_pos h]
  exact if_pos hs

theorem middleLoop_nonsilent (c : SilenceDetectorConfiguration) (θ : ℚ)
    (w f i sc : Nat) (st : MiddleState) (h : i < st.audioLevels.length)
    (hs : ¬ st.audioLevels.get ⟨i, h⟩ < θ) :
    middleLoop c θ w (f + 1) i sc st =
      middleLoop c θ w f (i + 1) 0 (processSilencesInTheMiddle c w i sc st) := by
  rw [middleLoop, dif_pos h]
  exact if_neg hs

theorem middleLoop_congr_fuel (c : SilenceDetectorConfiguration) (θ : ℚ) (w : Nat) :
    ∀ (fuel₁ fuel₂ i sc : Nat) (st : MiddleState),
      st.audioLevels.length ≤ fuel₁ + i → st.audioLevels.length ≤ fuel₂ + i →
      middleLoop c θ w fuel₁ i sc st = middleLoop c θ w fuel₂ i sc st := by
  intro fuel₁
  induction fuel₁ with
  | zero =>
      intro fuel₂ i sc st h1 h2
      have hend : ¬ i < st.audioLevels.length := by omega
      rw [middleLoop_at_end c θ w 0 i sc st hend,
        middleLoop_at_end c θ w fuel₂ i sc st hend]
  | succ f ih =>
      intro fuel₂ i sc st h1 h2
      by_cases hlt : i < st.audioLevels.length
      · cases fuel₂ with
        | zero => exact absurd hlt (by omega)
        | succ g =>
            by_cases hs : st.audioLevels.get ⟨i, hlt⟩ < θ
            · rw [middleLoop_silent c θ w f i sc st hlt hs,
                middleLoop_silent c θ w g i sc st hlt hs]
              exact ih g (i + 1) (sc + 1) st (by omega) (by omega)
            · rw [middleLoop_nonsilent c θ w f i sc st hlt hs,
                middleLoop_nonsilent c θ w g i sc st hlt hs]
              have hle := processSilencesInTheMiddle_length_le c w i sc st
              exact ih g (i + 1) 0 _ (by omega) (by omega)
      · rw [middleLoop_at_end c θ w _ i sc st hlt,
          middleLoop_at_end c θ w fuel₂ i sc st hlt]

theorem middleLoop_conservation (c : SilenceDetectorConfiguration) (θ : ℚ) (w : Nat) :
    ∀ (fuel i sc : Nat) (st : MiddleState),
      (middleLoop c θ w fuel i sc st).validSamples.flatten ++
          (middleLoop c θ w fuel i sc st).samples =
        st.validSamples.flatten ++ st.samples := by
  intro fuel
  induction fuel with
  | zero =>
      intro i sc st
      by_cases h : i < st.audioLevels.length
      · rw [middleLoop_zero_fuel c θ w i sc st h]
      · rw [middleLoop_at_end c θ w 0 i sc st h]
        exact processSilencesInTheMiddle_conservation c w i sc st
  | succ f ih =>
      intro i sc st
      by_cases hlt : i < st.audioLevels.length
      · by_cases hs : st.audioLevels.get ⟨i, hlt⟩ < θ
        · rw [middleLoop_silent c θ w f i sc st hlt hs]
          exact ih (i + 1) (sc + 1) st
        · rw [middleLoop_nonsilent c θ w f i sc st hlt hs]
          rw [ih (i + 1) 0 _]
          exact processSilencesInTheMiddle_conservation c w i sc st
      · rw [middleLoop_at_end c θ w _ i sc st hlt]
        exact processSilencesInTheMiddle_conservation c w i sc st

theorem middleLoop_match (level : List Int → ℚ) (c : SilenceDetectorConfiguration)
    (θ : ℚ) (w : Nat) :
    ∀ (fuel i sc : Nat) (st : MiddleState),
      LevelsMatch level w st.audioLevels st.samples →
      LevelsMatch level w (middleLoop c θ w fuel i sc st).audioLevels
        (middleLoop c θ w fuel i sc st).samples := by
  intro fuel
  induction fuel with
  | zero =>
      intro i sc st h
      by_cases hlt : i < st.audioLevels.length
      · rw [middleLoop_zero_fuel c θ w i sc st hlt]; exact h
      · rw [middleLoop_at_end c θ w 0 i sc st hlt]
        exact processSilencesInTheMiddle_match level c w i sc st h
  | succ f ih =>
      intro i sc st h
      by_cases hlt : i < st.audioLevels.length
      · by_cases hs : st.audioLevels.get ⟨i, hlt⟩ < θ
        · rw [middleLoop_silent c θ w f i sc st hlt hs]
          exact ih (i + 1) (sc + 1) st h
        · rw [middleLoop_nonsilent c θ w f i sc st hlt hs]
          exact ih (i + 1) 0 _ (processSilencesInTheMiddle_match level c w i sc st h)
      · rw [middleLoop_at_end c θ w _ i sc st hlt]
        exact processSilencesInTheMiddle_match level c w i sc st h

/-! ## Segment shape: every emitted segment is a positive number of whole windows -/

theorem processSilencesInTheMiddle_segments (c : SilenceDetectorConfiguration)
    (w i sc : Nat) (st : MiddleState) (hmin : 0 < c.SilenceMinDuration)
    (hlen : st.audioLevels.length * w ≤ st.samples.length)
    (hsc : sc + 1 ≤ i) (hor : i ≤ st.audioLevels.length ∨ sc = 0)
    (hall : ∀ s ∈ st.validSamples, SegOK w s) :
    (∀ s ∈ (processSilencesInTheMiddle c w i sc st).validSamples, SegOK w s) ∧
      (processSilencesInTheMiddle c w i sc st).audioLevels.length * w ≤
        (processSilencesInTheMiddle c w i sc st).samples.length := by
  unfold processSilencesInTheMiddle
  split
  · rename_i htrig
    have hscpos : 1 ≤ sc := by
      by_contra hc
      have hsc0 : sc = 0 := by omega
      subst hsc0
      simp only [Nat.cast_zero, zero_mul] at htrig
      omega
    have hile : i ≤ st.audioLevels.length := by
      rcases hor with h | h
      · exact h
      · omega
    have hjm : (i - sc) * w ≤ st.audioLevels.length * w :=
      Nat.mul_le_mul_right w (by omega)
    constructor
    · intro s hs
      simp only [List.mem_append, List.mem_singleton] at hs
      rcases hs with hs | hs
      · exact hall s hs
      · subst hs
        refine ⟨i - sc, by omega, ?_⟩
        simp only [List.length_take]
        omega
    · simp only [List.length_drop]
      have := Nat.sub_mul st.audioLevels.length (i - sc) w
      omega
  · exact ⟨hall, hlen⟩

theorem middleLoop_segments (c : SilenceDetectorConfiguration) (θ : ℚ) (w : Nat)
    (hmin : 0 < c.SilenceMinDuration) :
    ∀ (fuel i sc : Nat) (st : MiddleState),
      st.audioLevels.length * w ≤ st.samples.length →
      sc + 1 ≤ i →
      (i ≤ st.audioLevels.length ∨ sc = 0) →
      (∀ s ∈ st.validSamples, SegOK w s) →
      ∀ s ∈ (middleLoop c θ w fuel i sc st).validSamples, SegOK w s := by
  intro fuel
  induction fuel with
  | zero =>
      intro i sc st hlen hsc hor hall
      by_cases hlt : i < st.audioLevels.length
      · rw [middleLoop_zero_fuel c θ w i sc st hlt]; exact hall
      · rw [middleLoop_at_end c θ w 0 i sc st hlt]
        exact (processSilencesInTheMiddle_segments c w i sc st hmin hlen hsc hor hall).1
  | succ f ih =>
      intro i sc st hlen hsc hor hall
      by_cases hlt : i < st.audioLevels.length
      · by_cases hs : st.audioLevels.get ⟨i, hlt⟩ < θ
        · rw [middleLoop_silent c θ w f i sc st hlt hs]
          exact ih (i + 1) (sc + 1) st hlen (by omega) (by omega) hall
        · rw [middleLoop_nonsilent c θ w f i sc st hlt hs]
          obtain ⟨hall', hlen'⟩ :=
            processSilencesInTheMiddle_segments c w i sc st hmin hlen hsc hor hall
          exact ih (i + 1) 0 _ hlen' (by omega) (Or.inr rfl) hall'
      · rw [middleLoop_at_end c θ w _ i sc st hlt]
        exact (processSilencesInTheMiddle_segments c w i sc st hmin hlen hsc hor hall).1

/-! ## Scan characterization over homogeneous stretches (for the gate claim) -/

theorem middleLoop_run_nonsilent (c : SilenceDetectorConfiguration) (θ : ℚ) (w : Nat)
    (hmin : 0 < c.SilenceMinDuration) :
    ∀ (j fuel i : Nat) (st : MiddleState),
      st.audioLevels.length ≤ fuel + i →
      i + j ≤ st.audioLevels.length →
      (∀ (t : Nat) (h : t < st.audioLevels.length),
        i ≤ t → t < i + j → ¬ st.audioLevels.get ⟨t, h⟩ < θ) →
      middleLoop c θ w fuel i 0 st = middleLoop c θ w fuel (i + j) 0 st := by
  intro j
  induction j with
  | zero => intro fuel i st _ _ _; rfl
  | succ j ih =>
      intro fuel i st hfuel hbound hloud
      have hlt : i < st.audioLevels.length := by omega
      cases fuel with
      | zero => exact absurd hlt (by omega)
      | succ f =>
          have hns : ¬ st.audioLevels.get ⟨i, hlt⟩ < θ :=
            hloud i hlt (le_refl i) (by omega)
          rw [middleLoop_nonsilent c θ w f i 0 st hlt hns,
            processSilencesInTheMiddle_zero c w i st hmin]
          rw [middleLoop_congr_fuel c θ w f (f + 1) (i + 1) 0 st (by omega) (by omega)]
          rw [ih (f + 1) (i + 1) st (by omega) (by omega)
            (fun t h h1 h2 => hloud t h (by omega) (by omega))]
          have : i + 1 + j = i + (j + 1) := by omega
          rw [this]

theorem middleLoop_run_silent (c : SilenceDetectorConfiguration) (θ : ℚ) (w : Nat) :
    ∀ (j fuel i sc : Nat) (st : MiddleState),
      st.audioLevels.length ≤ fuel + i →
      i + j ≤ st.audioLevels.length →
      (∀ (t : Nat) (h : t < st.audioLevels.length),
        i ≤ t → t < i + j → st.audioLevels.get ⟨t, h⟩ < θ) →
      middleLoop c θ w fuel i sc st = middleLoop c θ w fuel (i + j) (sc + j) st := by
  intro j
  induction j with
  | zero => intro fuel i sc st _ _ _; rfl
  | succ j ih =>
      intro fuel i sc st hfuel hbound hsil
      have hlt : i < st.audioLevels.length := by omega
      cases fuel with
      | zero => exact absurd hlt (by omega)
      | succ f =>
          have hs : st.audioLevels.get ⟨i, hlt⟩ < θ :=
            hsil i hlt (le_refl i) (by omega)
          rw [middleLoop_silent c θ w f i sc st hlt hs]
          rw [middleLoop_congr_fuel c θ w f (f + 1) (i + 1) (sc + 1) st (by omega) (by omega)]
          rw [ih (f + 1) (i + 1) (sc + 1) st (by omega) (by omega)
            (fun t h h1 h2 => hsil t h (by omega) (by omega))]
          have h1 : i + 1 + j = i + (j + 1) := by omega
          have h2 : sc + 1 + j = sc + (j + 1) := by omega
          rw [h1, h2]

/-! ## Case equations and per-call facts for `AddFull` -/

theorem AddFull_of_lt (level : List Int → ℚ) (d : SilenceDetector)
    (chunk : List Int) (w : Nat) (θ : ℚ)
    (h : processableSamplesCount d chunk w < (w : Int)) :
    d.AddFull level chunk w θ = ({ d with samples := d.samples ++ chunk }, [], []) := by
  unfold SilenceDetector.AddFull
  rw [if_pos h]

theorem AddFull_of_short (level : List Int → ℚ) (d : SilenceDetector)
    (chunk : List Int) (w : Nat) (θ : ℚ)
    (h : ¬ processableSamplesCount d chunk w < (w : Int))
    (hshort : (levelsAfterPrune level d chunk w θ).length ≤ 1) :
    d.AddFull level chunk w θ =
      ({ d with
          audioLevels := levelsAfterPrune level d chunk w θ
          samples := samplesAfterPrune level d chunk w θ }, [],
        prunedSamples level d chunk w θ) := by
  unfold SilenceDetector.AddFull
  rw [if_neg h]
  exact if_pos hshort

theorem AddFull_of_main (level : List Int → ℚ) (d : SilenceDetector)
    (chunk : List Int) (w : Nat) (θ : ℚ)
    (h : ¬ processableSamplesCount d chunk w < (w : Int))
    (hlong : ¬ (levelsAfterPrune level d chunk w θ).length ≤ 1) :
    d.AddFull level chunk w θ =
      (let st := middleLoop d.c θ w (levelsAfterPrune level d chunk w θ).length 1 0
        ⟨levelsAfterPrune level d chunk w θ, samplesAfterPrune level d chunk w θ, []⟩
       ({ d with audioLevels := st.audioLevels, samples := st.samples },
         st.validSamples, prunedSamples level d chunk w θ)) := by
  unfold SilenceDetector.AddFull
  rw [if_neg h]
  exact if_neg hlong

theorem AddFull_c (level : List Int → ℚ) (d : SilenceDetector)
    (chunk : List Int) (w : Nat) (θ : ℚ) :
    (d.AddFull level chunk w θ).1.c = d.c := by
  by_cases hlt : processableSamplesCount d chunk w < (w : Int)
  · rw [AddFull_of_lt level d chunk w θ hlt]
  · by_cases hshort : (levelsAfterPrune level d chunk w θ).length ≤ 1
    · rw [AddFull_of_short level d chunk w θ hlt hshort]
    · rw [AddFull_of_main level d chunk w θ hlt hshort]

theorem prune_match (level : List Int → ℚ) (d : SilenceDetector)
    (chunk : List Int) (w : Nat) (θ : ℚ)
    (h : LevelsMatch level w d.audioLevels d.samples) :
    LevelsMatch level w (levelsAfterPrune level d chunk w θ)
      (samplesAfterPrune level d chunk w θ) := by
  have hext := levelsAfterCompute_match level d chunk w h
  unfold levelsAfterPrune samplesAfterPrune
  by_cases hk : silencesAtStart θ (levelsAfterCompute level d chunk w) > 1
  · rw [if_pos hk, if_pos hk]
    exact LevelsMatch_drop level w _ _ hext _
  · rw [if_neg hk, if_neg hk]
    exact hext

theorem AddFull_match (level : List Int → ℚ) (d : SilenceDetector)
    (chunk : List Int) (w : Nat) (θ : ℚ)
    (h : LevelsMatch level w d.audioLevels d.samples) :
    LevelsMatch level w (d.AddFull level chunk w θ).1.audioLevels
      (d.AddFull level chunk w θ).1.samples := by
  by_cases hlt : processableSamplesCount d chunk w < (w : Int)
  · rw [AddFull_of_lt level d chunk w θ hlt]
    exact LevelsMatch_append level w _ _ _ h
  · by_cases hshort : (levelsAfterPrune level d chunk w θ).length ≤ 1
    · rw [AddFull_of_short level d chunk w θ hlt hshort]
      exact prune_match level d chunk w θ h
    · rw [AddFull_of_main level d chunk w θ hlt hshort]
      exact middleLoop_match level d.c θ w _ 1 0 _ (prune_match level d chunk w θ h)

theorem AddFull_conservation (level : List Int → ℚ) (d : SilenceDetector)
    (chunk : List Int) (w : Nat) (θ : ℚ) :
    d.samples ++ chunk =
      (d.AddFull level chunk w θ).2.2 ++ (d.AddFull level chunk w θ).2.1.flatten ++
        (d.AddFull level chunk w θ).1.samples := by
  have hps : prunedSamples level d chunk w θ ++ samplesAfterPrune level d chunk w θ =
      d.samples ++ chunk := by
    unfold prunedSamples samplesAfterPrune
    by_cases hk : silencesAtStart θ (levelsAfterCompute level d chunk w) > 1
    · rw [if_pos hk, if_pos hk, List.take_append_drop]
    · rw [if_neg hk, if_neg hk, List.nil_append]
  by_cases hlt : processableSamplesCount d chunk w < (w : Int)
  · rw [AddFull_of_lt level d chunk w θ hlt]
    simp
  · by_cases hshort : (levelsAfterPrune level d chunk w θ).length ≤ 1
    · rw [AddFull_of_short level d chunk w θ hlt hshort]
      simpa using hps.symm
    · rw [AddFull_of_main level d chunk w θ hlt hshort]
      have hloop := middleLoop_conservation d.c θ w
        (levelsAfterPrune level d chunk w θ).length 1 0
        ⟨levelsAfterPrune level d chunk w θ, samplesAfterPrune level d chunk w θ, []⟩
      simp only [List.flatten_nil, List.nil_append] at hloop
      simp only [List.append_assoc, hloop]
      exact hps.symm

theorem AddFull_pruned_mul (level : List Int → ℚ) (d : SilenceDetector)
    (chunk : List Int) (w : Nat) (θ : ℚ)
    (h : LevelsMatch level w d.audioLevels d.samples) :
    ∃ m, (prunedSamples level d chunk w θ).length = m * w := by
  have hext := levelsAfterCompute_match level d chunk w h
  unfold prunedSamples
  by_cases hk : silencesAtStart θ (levelsAfterCompute level d chunk w) > 1
  · rw [if_pos hk]
    set k := silencesAtStart θ (levelsAfterCompute level d chunk w) with hkdef
    have hkle : k ≤ (levelsAfterCompute level d chunk w).length :=
      takeWhile_length_le _ _
    have hmul : (k - 1) * w ≤ (levelsAfterCompute level d chunk w).length * w :=
      Nat.mul_le_mul_right w (by omega)
    refine ⟨k - 1, ?_⟩
    simp only [List.length_take]
    have := hext.1
    omega
  · exact ⟨0, by rw [if_neg hk]; simp⟩

theorem AddFull_segments (level : List Int → ℚ) (d : SilenceDetector)
    (chunk : List Int) (w : Nat) (θ : ℚ)
    (hmin : 0 < d.c.SilenceMinDuration)
    (h : LevelsMatch level w d.audioLevels d.samples) :
    ∀ s ∈ (d.AddFull level chunk w θ).2.1, SegOK w s := by
  by_cases hlt : processableSamplesCount d chunk w < (w : Int)
  · rw [AddFull_of_lt level d chunk w θ hlt]
    exact fun s hs => absurd hs (List.not_mem_nil s)
  · by_cases hshort : (levelsAfterPrune level d chunk w θ).length ≤ 1
    · rw [AddFull_of_short level d chunk w θ hlt hshort]
      exact fun s hs => absurd hs (List.not_mem_nil s)
    · rw [AddFull_of_main level d chunk w θ hlt hshort]
      have hpm := prune_match level d chunk w θ h
      exact middleLoop_segments d.c θ w hmin _ 1 0
        ⟨levelsAfterPrune level d chunk w θ, samplesAfterPrune level d chunk w θ, []⟩
        hpm.1 (by omega) (Or.inl (by dsimp only; omega))
        (fun s hs => absurd hs (List.not_mem_nil s))

theorem AddFull_prunedLen (level : List Int → ℚ) (d : SilenceDetector)
    (chunk : List Int) (w : Nat) (θ : ℚ)
    (h : LevelsMatch level w d.audioLevels d.samples) :
    ∃ m, (d.AddFull level chunk w θ).2.2.length = m * w := by
  by_cases hlt : processableSamplesCount d chunk w < (w : Int)
  · rw [AddFull_of_lt level d chunk w θ hlt]
    exact ⟨0, by simp⟩
  · by_cases hshort : (levelsAfterPrune level d chunk w θ).length ≤ 1
    · rw [AddFull_of_short level d chunk w θ hlt hshort]
      exact AddFull_pruned_mul level d chunk w θ h
    · rw [AddFull_of_main level d chunk w θ hlt hshort]
      exact AddFull_pruned_mul level d chunk w θ h

/-! ## Folding a sequence of `Add` calls -/

theorem runAdds_match (level : List Int → ℚ) (w : Nat) :
    ∀ (calls : List (List Int × ℚ)) (d : SilenceDetector),
      LevelsMatch level w d.audioLevels d.samples →
      LevelsMatch level w (runAdds level w d calls).1.audioLevels
        (runAdds level w d calls).1.samples := by
  intro calls
  induction calls with
  | nil => intro d h; exact h
  | cons pr rest ih =>
      intro d h
      obtain ⟨chunk, θ⟩ := pr
      simp only [runAdds]
      exact ih _ (AddFull_match level d chunk w θ h)

theorem runAdds_c (level : List Int → ℚ) (w : Nat) :
    ∀ (calls : List (List Int × ℚ)) (d : SilenceDetector),
      (runAdds level w d calls).1.c = d.c := by
  intro calls
  induction calls with
  | nil => intro d; rfl
  | cons pr rest ih =>
      intro d
      obtain ⟨chunk, θ⟩ := pr
      simp only [runAdds]
      rw [ih]
      exact AddFull_c level d chunk w θ

theorem runAdds_segments (level : List Int → ℚ) (w : Nat) :
    ∀ (calls : List (List Int × ℚ)) (d : SilenceDetector),
      0 < d.c.SilenceMinDuration →
      LevelsMatch level w d.audioLevels d.samples →
      ∀ s ∈ (runAdds level w d calls).2, SegOK w s := by
  intro calls
  induction calls with
  | nil => intro d _ _ s hs; exact absurd hs (List.not_mem_nil s)
  | cons pr rest ih =>
      intro d hmin h s hs
      obtain ⟨chunk, θ⟩ := pr
      simp only [runAdds, List.mem_append] at hs
      rcases hs with hs | hs
      · exact AddFull_segments level d chunk w θ hmin h s hs
      · refine ih _ ?_ (AddFull_match level d chunk w θ h) s hs
        rw [AddFull_c level d chunk w θ]
        exact hmin

theorem runAddsFull_conservation (level : List Int → ℚ) (w : Nat) :
    ∀ (calls : List (List Int × ℚ)) (d : SilenceDetector),
      d.samples ++ (calls.map Prod.fst).flatten =
        ((runAddsFull level w d calls).2.map
            (fun pc => pc.1 ++ pc.2.flatten)).flatten ++
          (runAddsFull level w d calls).1.samples := by
  intro calls
  induction calls with
  | nil => intro d; simp [runAddsFull]
  | cons pr rest ih =>
      intro d
      obtain ⟨chunk, θ⟩ := pr
      simp only [runAddsFull, List.map_cons, List.flatten_cons]
      have hcons := AddFull_conservation level d chunk w θ
      have hrest := ih ((d.AddFull level chunk w θ).1)
      calc d.samples ++ (((chunk, θ) :: rest).map Prod.fst).flatten
          = (d.samples ++ chunk) ++ (rest.map Prod.fst).flatten := by
            simp [List.append_assoc]
        _ = ((d.AddFull level chunk w θ).2.2 ++ (d.AddFull level chunk w θ).2.1.flatten ++
              (d.AddFull level chunk w θ).1.samples) ++ (rest.map Prod.fst).flatten := by
            rw [← hcons]
        _ = (d.AddFull level chunk w θ).2.2 ++ (d.AddFull level chunk w θ).2.1.flatten ++
              ((d.AddFull level chunk w θ).1.samples ++ (rest.map Prod.fst).flatten) := by
            simp [List.append_assoc]
        _ = (d.AddFull level chunk w θ).2.2 ++ (d.AddFull level chunk w θ).2.1.flatten ++
              (((runAddsFull level w (d.AddFull level chunk w θ).1 rest).2.map
                  (fun pc => pc.1 ++ pc.2.flatten)).flatten ++
                (runAddsFull level w (d.AddFull level chunk w θ).1 rest).1.samples) := by
            rw [← hrest]
        _ = _ := by simp [List.append_assoc]

theorem runAddsFull_pruned_mul (level : List Int → ℚ) (w : Nat) :
    ∀ (calls : List (List Int × ℚ)) (d : SilenceDetector),
      LevelsMatch level w d.audioLevels d.samples →
      ∀ pc ∈ (runAddsFull level w d calls).2, ∃ m, pc.1.length = m * w := by
  intro calls
  induction calls with
  | nil => intro d _ pc hpc; exact absurd hpc (List.not_mem_nil pc)
  | cons pr rest ih =>
      intro d h pc hpc
      obtain ⟨chunk, θ⟩ := pr
      simp only [runAddsFull, List.mem_cons] at hpc
      rcases hpc with hpc | hpc
      · subst hpc
        exact AddFull_prunedLen level d chunk w θ h
      · exact ih _ (AddFull_match level d chunk w θ h) pc hpc

theorem Reset_match (level : List Int → ℚ) (w : Nat) (d : SilenceDetector) :
    LevelsMatch level w d.Reset.audioLevels d.Reset.samples := by
  constructor
  · simp [SilenceDetector.Reset]
  · intro i h
    simp [SilenceDetector.Reset] at h

/-! ## Claims -/

/-- C1: Buffer lock-step invariant.  With `window_size ≥ 1` and the same
window size (hence the same sample rate) on every `Add` since the last
`Reset`, after every `Add` call `len(levels) * window_size ≤ len(samples)`
and each `levels[i]` equals the external level function applied to
`samples[i*window_size : (i+1)*window_size]`.  Quantifying over all call
sequences covers the state after every individual call. -/
theorem claim1_buffer_lockstep (level : List Int → ℚ) (w : Nat) (hw : 1 ≤ w)
    (d : SilenceDetector) (calls : List (List Int × ℚ)) :
    LevelsMatch level w (runAdds level w d.Reset calls).1.audioLevels
      (runAdds level w d.Reset calls).1.samples :=
  runAdds_match level w calls d.Reset (Reset_match level w d)

theorem claim1_buffer_lockstep_witness :
    1 ≤ 2 ∧
      LevelsMatch sumLevel 2
        (runAdds sumLevel 2 (NewSilenceDetector gateConfig).Reset
          [([1, 1, 0, 0], 1)]).1.audioLevels
        (runAdds sumLevel 2 (NewSilenceDetector gateConfig).Reset
          [([1, 1, 0, 0], 1)]).1.samples :=
  ⟨by decide,
    claim1_buffer_lockstep sumLevel 2 (by decide) (NewSilenceDetector gateConfig)
      [([1, 1, 0, 0], 1)]⟩

/-- C8: Insufficient data is not an error.  When fewer than `window_size`
unprocessed samples are available after appending the chunk
(`window_size ≥ 1`), `Add` returns an empty segment sequence, leaves the
level buffer unchanged, and the sample buffer equals the prior contents
followed by the chunk. -/
theorem claim8_insufficient_data (level : List Int → ℚ) (d : SilenceDetector)
    (chunk : List Int) (w : Nat) (θ : ℚ) (hw : 1 ≤ w)
    (h : processableSamplesCount d chunk w < (w : Int)) :
    d.Add level chunk w θ = ({ d with samples := d.samples ++ chunk }, []) := by
  unfold SilenceDetector.Add
  rw [AddFull_of_lt level d chunk w θ h]

theorem claim8_insufficient_data_witness :
    1 ≤ 2 ∧ processableSamplesCount (NewSilenceDetector gateConfig) [7] 2 < (2 : Int) ∧
      (NewSilenceDetector gateConfig).Add sumLevel [7] 2 1 =
        ({ NewSilenceDetector gateConfig with
            samples := (NewSilenceDetector gateConfig).samples ++ [7] }, []) :=
  ⟨by decide, by decide,
    claim8_insufficient_data sumLevel (NewSilenceDetector gateConfig) [7] 2 1
      (by decide) (by decide)⟩

/-- C10: Reclassification requires new data.  An `Add` call that supplies
fewer than `window_size` new unprocessed samples returns before any
reclassification: the result does not depend on the threshold, nothing is
pruned, no run detection happens, and the level buffer is untouched. -/
theorem claim10_reclassification_requires_new_data (level : List Int → ℚ)
    (d : SilenceDetector) (chunk : List Int) (w : Nat) (hw : 1 ≤ w)
    (h : processableSamplesCount d chunk w < (w : Int)) (θ₁ θ₂ : ℚ) :
    d.AddFull level chunk w θ₁ = d.AddFull level chunk w θ₂ ∧
      (d.AddFull level chunk w θ₁).1.audioLevels = d.audioLevels ∧
      (d.AddFull level chunk w θ₁).2.1 = [] ∧
      (d.AddFull level chunk w θ₁).2.2 = [] := by
  rw [AddFull_of_lt level d chunk w θ₁ h, AddFull_of_lt level d chunk w θ₂ h]
  exact ⟨rfl, rfl, rfl, rfl⟩

theorem claim10_reclassification_requires_new_data_witness :
    1 ≤ 2 ∧ processableSamplesCount twoRunDetector [] 2 < (2 : Int) ∧
      (twoRunDetector.AddFull sumLevel [] 2 1 = twoRunDetector.AddFull sumLevel [] 2 1000 ∧
        (twoRunDetector.AddFull sumLevel [] 2 1).1.audioLevels = twoRunDetector.audioLevels ∧
        (twoRunDetector.AddFull sumLevel [] 2 1).2.1 = [] ∧
        (twoRunDetector.AddFull sumLevel [] 2 1).2.2 = []) :=
  ⟨by decide, by decide,
    claim10_reclassification_requires_new_data sumLevel twoRunDetector [] 2
      (by decide) (by decide) 1 1000⟩

/-- C9: Segment granularity.  Over any call sequence with one window size
`w ≥ 1` from a reset state with a positive configured minimum silence
duration, every emitted segment is non-empty and its length is a positive
multiple of `w`. -/
theorem claim9_segment_granularity (level : List Int → ℚ) (w : Nat) (hw : 1 ≤ w)
    (d : SilenceDetector) (hmin : 0 < d.c.SilenceMinDuration)
    (calls : List (List Int × ℚ)) :
    ∀ s ∈ (runAdds level w d.Reset calls).2,
      s ≠ [] ∧ ∃ m, 1 ≤ m ∧ s.length = m * w := by
  intro s hs
  obtain ⟨m, hm, hlen⟩ :=
    runAdds_segments level w calls d.Reset hmin (Reset_match level w d) s hs
  refine ⟨?_, m, hm, hlen⟩
  intro hnil
  rw [hnil] at hlen
  have hmul : 1 * 1 ≤ m * w := Nat.mul_le_mul hm hw
  simp at hlen
  omega

theorem claim9_segment_granularity_witness :
    1 ≤ 2 ∧ 0 < (NewSilenceDetector gateConfig).c.SilenceMinDuration ∧
      ∀ s ∈ (runAdds sumLevel 2 (NewSilenceDetector gateConfig).Reset
          [(twoRunChunk, 1)]).2,
        s ≠ [] ∧ ∃ m, 1 ≤ m ∧ s.length = m * 2 :=
  ⟨by decide, by decide,
    claim9_segment_granularity sumLevel 2 (by decide) (NewSilenceDetector gateConfig)
      (by decide) [(twoRunChunk, 1)]⟩

/-- C3 (amended): No data loss, with the correct account of what is
dropped.  For any call sequence with one window size `w ≥ 1` from a reset
state, interleaving — in call order — each call's pruned leading-silence
samples with the segments it emitted, followed by the final residual
buffer, reconstructs the concatenation of all input chunks exactly; and
every pruned block is a whole number of windows.  (The pruned blocks are
not necessarily confirmed-length silences: see `claim3_counterexample`.) -/
theorem claim3_amended_conservation (level : List Int → ℚ) (w : Nat) (hw : 1 ≤ w)
    (d : SilenceDetector) (calls : List (List Int × ℚ)) :
    ((runAddsFull level w d.Reset calls).2.map
        (fun pc => pc.1 ++ pc.2.flatten)).flatten ++
        (runAddsFull level w d.Reset calls).1.samples =
      (calls.map Prod.fst).flatten ∧
      ∀ pc ∈ (runAddsFull level w d.Reset calls).2, ∃ m, pc.1.length = m * w := by
  constructor
  · have h := runAddsFull_conservation level w calls d.Reset
    have hres : d.Reset.samples = ([] : List Int) := rfl
    rw [hres, List.nil_append] at h
    exact h.symm
  · exact runAddsFull_pruned_mul level w calls d.Reset (Reset_match level w d)

theorem claim3_amended_conservation_witness :
    1 ≤ 2 ∧
      (((runAddsFull sumLevel 2 (NewSilenceDetector ⟨0, 0⟩).Reset
            [([0, 0, 0, 0, 15, 15], 1)]).2.map
          (fun pc => pc.1 ++ pc.2.flatten)).flatten ++
          (runAddsFull sumLevel 2 (NewSilenceDetector ⟨0, 0⟩).Reset
            [([0, 0, 0, 0, 15, 15], 1)]).1.samples =
        ([([0, 0, 0, 0, 15, 15], (1 : ℚ))].map Prod.fst).flatten ∧
        ∀ pc ∈ (runAddsFull sumLevel 2 (NewSilenceDetector ⟨0, 0⟩).Reset
            [([0, 0, 0, 0, 15, 15], 1)]).2, ∃ m, pc.1.length = m * 2) :=
  ⟨by decide,
    claim3_amended_conservation sumLevel 2 (by decide) (NewSilenceDetector ⟨0, 0⟩)
      [([0, 0, 0, 0, 15, 15], 1)]⟩

/-- C3 counterexample: the claim as stated is false.  With the default
configuration (1 s minimum silence, 30 ms step) and window size 2, feeding
two silent windows followed by a loud window contains no silence stretch
long enough to be confirmed (3 windows × 30 ms < 1 s), yet the emitted
segments plus the residual buffer do not reconstruct the input: one whole
silent window was dropped by leading-silence pruning. -/
theorem claim3_counterexample :
    ((NewSilenceDetector ⟨0, 0⟩).Add sumLevel [0, 0, 0, 0, 15, 15] 2 1).2 = [] ∧
      ((NewSilenceDetector ⟨0, 0⟩).Add sumLevel [0, 0, 0, 0, 15, 15] 2 1).1.samples =
        [0, 0, 15, 15] ∧
      (NewSilenceDetector ⟨0, 0⟩).c.SilenceMinDuration = 1000000000 ∧
      (3 : Int) * (NewSilenceDetector ⟨0, 0⟩).c.StepDuration < 1000000000 ∧
      ((NewSilenceDetector ⟨0, 0⟩).Add sumLevel [0, 0, 0, 0, 15, 15] 2 1).2.flatten ++
          ((NewSilenceDetector ⟨0, 0⟩).Add sumLevel
            [0, 0, 0, 0, 15, 15] 2 1).1.samples ≠
        [0, 0, 0, 0, 15, 15] := by
  refine ⟨by decide, by decide, by decide, by decide, by decide⟩

set_option maxRecDepth 10000 in
/-- C4: The specification's concrete scenario.  With step 30 ms, minimum
silence 90 ms and sample rate 1000 Hz the window size is 30 samples; on ten
windows (0–1 loud, 2–4 silent, 5–9 loud) `Add` emits exactly one segment —
the 60 samples of windows 0–1 — and the buffer afterwards holds the 240
samples of windows 2 onward. -/
theorem claim4_scenario :
    audioLevelAnalysisSamplesCount 1000 (NewSilenceDetector gateConfig).c.StepDuration = 30 ∧
      ((NewSilenceDetector gateConfig).Add sumLevel c4chunk 30 1).2 =
        [List.replicate 60 100] ∧
      ((NewSilenceDetector gateConfig).Add sumLevel c4chunk 30 1).1.samples =
        List.replicate 90 0 ++ List.replicate 150 100 ∧
      ((NewSilenceDetector gateConfig).Add sumLevel c4chunk 30 1).1.samples.length = 240 :=
  ⟨by decide, by decide, by decide, by decide⟩

/-- C2 counterexample: `twoRunChunk` holds two disjoint three-window silence
runs, each confirmed-length for `gateConfig` (3 × 30 ms ≥ 90 ms) and each
preceded by non-silent audio, yet the single `Add` call emits exactly one
segment (the loud window before the first run) instead of one per confirmed
run. -/
theorem claim2_counterexample :
    ((NewSilenceDetector gateConfig).Add sumLevel twoRunChunk 2 1).2.length = 1 ∧
      ((NewSilenceDetector gateConfig).Add sumLevel twoRunChunk 2 1).2 = [loudWindow 2] ∧
      (3 : Int) * gateConfig.StepDuration ≥ gateConfig.SilenceMinDuration :=
  ⟨by decide, by decide, by decide⟩

/-- C2 (amended): after a confirmed run triggers emission and trimming, the
run counter is reset but the loop keeps its pre-trim index over the trimmed
buffer, skipping as many windows as were trimmed; in the two-run scenario
the single `Add` call therefore emits only the segment before the first
run, and the second confirmed run stays buffered and is emitted by the next
call that forms a new window — prefixed by the one retained silent padding
window — preserving chronological order. -/
theorem claim2_amended_deferred_emission :
    ((NewSilenceDetector gateConfig).Add sumLevel twoRunChunk 2 1).2 = [loudWindow 2] ∧
      (twoRunDetector.Add sumLevel (loudWindow 2) 2 1).2 =
        [silentWindow 2 ++ loudWindow 2] :=
  ⟨by decide, by decide⟩

/-! ## Behaviour at window size zero (for the degenerate-input claim) -/

theorem middleLoop_w0 (c : SilenceDetectorConfiguration) (θ : ℚ) :
    ∀ (fuel i sc : Nat) (st : MiddleState),
      (middleLoop c θ 0 fuel i sc st).samples = st.samples ∧
      ∀ s ∈ (middleLoop c θ 0 fuel i sc st).validSamples,
        s ∈ st.validSamples ∨ s = [] := by
  have hproc : ∀ (i sc : Nat) (st : MiddleState),
      (processSilencesInTheMiddle c 0 i sc st).samples = st.samples ∧
      ∀ s ∈ (processSilencesInTheMiddle c 0 i sc st).validSamples,
        s ∈ st.validSamples ∨ s = [] := by
    intro i sc st
    unfold processSilencesInTheMiddle
    split
    · constructor
      · simp
      · intro s hs
        simp only [Nat.mul_zero, List.take_zero, List.mem_append,
          List.mem_singleton] at hs
        rcases hs with hs | hs
        · exact Or.inl hs
        · exact Or.inr hs
    · exact ⟨rfl, fun s hs => Or.inl hs⟩
  intro fuel
  induction fuel with
  | zero =>
      intro i sc st
      by_cases hlt : i < st.audioLevels.length
      · rw [middleLoop_zero_fuel c θ 0 i sc st hlt]
        exact ⟨rfl, fun s hs => Or.inl hs⟩
      · rw [middleLoop_at_end c θ 0 0 i sc st hlt]
        exact hproc i sc st
  | succ f ih =>
      intro i sc st
      by_cases hlt : i < st.audioLevels.length
      · by_cases hs : st.audioLevels.get ⟨i, hlt⟩ < θ
        · rw [middleLoop_silent c θ 0 f i sc st hlt hs]
          exact ih (i + 1) (sc + 1) st
        · rw [middleLoop_nonsilent c θ 0 f i sc st hlt hs]
          obtain ⟨hsamp, hval⟩ := ih (i + 1) 0 (processSilencesInTheMiddle c 0 i sc st)
          obtain ⟨hsamp', hval'⟩ := hproc i sc st
          refine ⟨by rw [hsamp, hsamp'], ?_⟩
          intro s hmem
          rcases hval s hmem with hmem' | hnil
          · exact hval' s hmem'
          · exact Or.inr hnil
      · rw [middleLoop_at_end c θ 0 (f + 1) i sc st hlt]
        exact hproc i sc st

theorem samplesAfterPrune_w0 (level : List Int → ℚ) (d : SilenceDetector)
    (chunk : List Int) (θ : ℚ) :
    samplesAfterPrune level d chunk 0 θ = d.samples ++ chunk := by
  unfold samplesAfterPrune
  split
  · simp
  · rfl

theorem prunedSamples_w0 (level : List Int → ℚ) (d : SilenceDetector)
    (chunk : List Int) (θ : ℚ) :
    prunedSamples level d chunk 0 θ = [] := by
  unfold prunedSamples
  split
  · simp
  · rfl

/-- C7 (amended): there is no fail-fast rejection of a degenerate window
size.  `Add` has no error outcome at all; at window size 0 (sample rate 0)
it always passes the insufficient-data guard, never trims the sample
buffer, discards nothing, and every segment it emits is empty — while it
can still reclassify and prune the level buffer, desynchronizing it from
the samples (`claim7_counterexample`); a negative window size (negative
sample rate) makes the Go code reslice at a negative index and panic. -/
theorem claim7_amended_degenerate_window (level : List Int → ℚ)
    (d : SilenceDetector) (chunk : List Int) (θ : ℚ) :
    ¬ processableSamplesCount d chunk 0 < ((0 : Nat) : Int) ∧
      (d.AddFull level chunk 0 θ).1.samples = d.samples ++ chunk ∧
      (∀ s ∈ (d.AddFull level chunk 0 θ).2.1, s = []) ∧
      (d.AddFull level chunk 0 θ).2.2 = [] := by
  have hguard : ¬ processableSamplesCount d chunk 0 < ((0 : Nat) : Int) := by
    unfold processableSamplesCount processedSamplesCount
    simp only [Nat.mul_zero, Nat.cast_zero, sub_zero, not_lt]
    exact Int.natCast_nonneg _
  refine ⟨hguard, ?_⟩
  by_cases hshort : (levelsAfterPrune level d chunk 0 θ).length ≤ 1
  · rw [AddFull_of_short level d chunk 0 θ hguard hshort]
    refine ⟨samplesAfterPrune_w0 level d chunk θ, ?_, prunedSamples_w0 level d chunk θ⟩
    intro s hs
    exact absurd hs (List.not_mem_nil s)
  · rw [AddFull_of_main level d chunk 0 θ hguard hshort]
    obtain ⟨hsamp, hval⟩ := middleLoop_w0 d.c θ
      (levelsAfterPrune level d chunk 0 θ).length 1 0
      ⟨levelsAfterPrune level d chunk 0 θ, samplesAfterPrune level d chunk 0 θ, []⟩
    refine ⟨hsamp.trans (samplesAfterPrune_w0 level d chunk θ), ?_,
      prunedSamples_w0 level d chunk θ⟩
    intro s hs
    rcases hval s hs with hmem | hnil
    · exact absurd hmem (List.not_mem_nil s)
    · exact hnil

/-- C7 counterexample: at window size 0 (sample rate 0) `Add` does not fail
fast with any `InvalidWindowSize` condition — it returns a normal result
and still processes: on a reachable state whose buffer head holds the three
silent windows of a previously confirmed run, it prunes the level buffer
from 8 windows to 4 while keeping all samples (breaking the lock-step
correspondence for any positive window size) and emits an empty segment. -/
theorem claim7_counterexample :
    (twoRunDetector.AddFull sumLevel [] 0 1).2.1 = [[]] ∧
      (twoRunDetector.AddFull sumLevel [] 0 1).1.samples = twoRunDetector.samples ∧
      twoRunDetector.audioLevels.length = 8 ∧
      (twoRunDetector.AddFull sumLevel [] 0 1).1.audioLevels.length = 4 ∧
      twoRunDetector.samples.length = 16 :=
  ⟨by decide, by decide, by decide, by decide, by decide⟩

theorem AddFull_pruned_eq (level : List Int → ℚ) (d : SilenceDetector)
    (chunk : List Int) (w : Nat) (θ : ℚ)
    (hguard : ¬ processableSamplesCount d chunk w < (w : Int)) :
    (d.AddFull level chunk w θ).2.2 = prunedSamples level d chunk w θ := by
  by_cases hshort : (levelsAfterPrune level d chunk w θ).length ≤ 1
  · rw [AddFull_of_short level d chunk w θ hguard hshort]
  · rw [AddFull_of_main level d chunk w θ hguard hshort]

/-- C5: Leading-silence pruning.  In an `Add` call that forms at least one
new window (the insufficient-data guard does not fire, `w ≥ 1`), when the
maximal run of silent windows at the start of the freshly extended level
buffer has length `k ≥ 2`: exactly the first `k-1` windows are dropped from
the level buffer and the first `(k-1)·w` samples from the sample buffer;
every window before index `k` (the dropped ones and the retained padding
window at index `k-1`) is silent, while the window at index `k` — when one
exists — is not, so exactly one silent padding window is retained; and the
dropped samples precede every emitted segment and the residual, so they are
never emitted. -/
theorem claim5_leading_silence_pruning (level : List Int → ℚ) (d : SilenceDetector)
    (chunk : List Int) (w : Nat) (θ : ℚ) (hw : 1 ≤ w)
    (hguard : ¬ processableSamplesCount d chunk w < (w : Int))
    (hk : 2 ≤ silencesAtStart θ (levelsAfterCompute level d chunk w)) :
    ((d.AddFull level chunk w θ).2.2 =
        (d.samples ++ chunk).take
          ((silencesAtStart θ (levelsAfterCompute level d chunk w) - 1) * w)) ∧
      (levelsAfterPrune level d chunk w θ =
        (levelsAfterCompute level d chunk w).drop
          (silencesAtStart θ (levelsAfterCompute level d chunk w) - 1)) ∧
      (samplesAfterPrune level d chunk w θ =
        (d.samples ++ chunk).drop
          ((silencesAtStart θ (levelsAfterCompute level d chunk w) - 1) * w)) ∧
      (∀ (t : Nat) (h : t < (levelsAfterCompute level d chunk w).length),
        t < silencesAtStart θ (levelsAfterCompute level d chunk w) →
        (levelsAfterCompute level d chunk w).get ⟨t, h⟩ < θ) ∧
      (∀ h : silencesAtStart θ (levelsAfterCompute level d chunk w) <
          (levelsAfterCompute level d chunk w).length,
        ¬ (levelsAfterCompute level d chunk w).get
          ⟨silencesAtStart θ (levelsAfterCompute level d chunk w), h⟩ < θ) ∧
      d.samples ++ chunk =
        (d.AddFull level chunk w θ).2.2 ++ (d.AddFull level chunk w θ).2.1.flatten ++
          (d.AddFull level chunk w θ).1.samples := by
  have hk1 : silencesAtStart θ (levelsAfterCompute level d chunk w) > 1 := hk
  refine ⟨?_, ?_, ?_, ?_, ?_, AddFull_conservation level d chunk w θ⟩
  · rw [AddFull_pruned_eq level d chunk w θ hguard]
    unfold prunedSamples
    rw [if_pos hk1]
  · unfold levelsAfterPrune
    rw [if_pos hk1]
  · unfold samplesAfterPrune
    rw [if_pos hk1]
  · intro t h ht
    exact of_decide_eq_true
      (takeWhile_get_sat (fun l => decide (l < θ)) (levelsAfterCompute level d chunk w)
        t h ht)
  · intro h
    exact of_decide_eq_false
      (takeWhile_get_max (fun l => decide (l < θ)) (levelsAfterCompute level d chunk w) h)

theorem claim5_leading_silence_pruning_witness :
    1 ≤ 2 ∧
      ¬ processableSamplesCount (NewSilenceDetector ⟨0, 0⟩) c5chunk 2 < ((2 : Nat) : Int) ∧
      2 ≤ silencesAtStart 1 (levelsAfterCompute sumLevel (NewSilenceDetector ⟨0, 0⟩) c5chunk 2) ∧
      ((NewSilenceDetector ⟨0, 0⟩).AddFull sumLevel c5chunk 2 1).2.2 =
        ((NewSilenceDetector ⟨0, 0⟩).samples ++ c5chunk).take
          ((silencesAtStart 1 (levelsAfterCompute sumLevel
            (NewSilenceDetector ⟨0, 0⟩) c5chunk 2) - 1) * 2) :=
  ⟨by decide, by decide, by decide,
    (claim5_leading_silence_pruning sumLevel (NewSilenceDetector ⟨0, 0⟩) c5chunk 2 1
      (by decide) (by decide) (by decide)).1⟩

/-! ## Support for the minimum-duration-gate scenarios -/

theorem sumLevel_loudWindow (w : Nat) : sumLevel (loudWindow w) = (w : ℚ) := by
  simp [sumLevel, loudWindow, List.sum_replicate]

theorem sumLevel_silentWindow (w : Nat) : sumLevel (silentWindow w) = 0 := by
  simp [sumLevel, silentWindow, List.sum_replicate]

theorem flatten_length_uniform (w : Nat) :
    ∀ ws : List (List Int), (∀ x ∈ ws, x.length = w) →
      ws.flatten.length = ws.length * w := by
  intro ws
  induction ws with
  | nil => intro _; simp
  | cons x t ih =>
      intro h
      have hx : x.length = w := h x (List.mem_cons_self x t)
      have ht := ih (fun y hy => h y (List.mem_cons_of_mem x hy))
      simp only [List.flatten_cons, List.length_append, List.length_cons, hx, ht]
      ring

theorem computeAudioLevels_flatten (level : List Int → ℚ) (w : Nat) :
    ∀ (ws : List (List Int)) (s : List Int) (p : Nat),
      s.drop p = ws.flatten → (∀ x ∈ ws, x.length = w) →
      computeAudioLevels level s w p ws.length = ws.map level := by
  intro ws
  induction ws with
  | nil => intro s p _ _; rfl
  | cons x t ih =>
      intro s p hdrop hlen
      have hx : x.length = w := hlen x (List.mem_cons_self x t)
      have hwin : (s.drop p).take w = x := by
        rw [hdrop, List.flatten_cons, ← hx, List.take_left]
      have hrest : s.drop (p + w) = t.flatten := by
        rw [← List.drop_drop, hdrop, List.flatten_cons, ← hx, List.drop_left]
      simp only [List.length_cons, computeAudioLevels, List.map_cons, hwin]
      rw [ih s (p + w) hrest (fun y hy => hlen y (List.mem_cons_of_mem x hy))]

theorem levelsAfterCompute_fresh (level : List Int → ℚ)
    (c : SilenceDetectorConfiguration) (ws : List (List Int)) (w : Nat) (hw : 1 ≤ w)
    (hlen : ∀ x ∈ ws, x.length = w) :
    levelsAfterCompute level ⟨[], c, []⟩ ws.flatten w = ws.map level := by
  unfold levelsAfterCompute
  have hflat : ws.flatten.length = ws.length * w := flatten_length_uniform w ws hlen
  have hproc : processedSamplesCount ⟨[], c, []⟩ w = 0 := by
    simp [processedSamplesCount]
  have hps : processableSamplesCount ⟨[], c, []⟩ ws.flatten w =
      ((ws.length : Int) * w) := by
    simp only [processableSamplesCount, hproc, List.nil_append, hflat]
    push_cast
    ring
  have hwne : ((w : Int)) ≠ 0 := by
    have : (0 : Int) < (w : Int) := by exact_mod_cast Nat.lt_of_lt_of_le Nat.zero_lt_one hw
    omega
  have hn : (processableSamplesCount ⟨[], c, []⟩ ws.flatten w / (w : Int)).toNat =
      ws.length := by
    rw [hps, Int.mul_ediv_cancel _ hwne]
    simp
  rw [hproc, hn]
  simp only [List.nil_append]
  exact computeAudioLevels_flatten level w ws ws.flatten 0 (by simp) hlen

theorem fresh_guard (c : SilenceDetectorConfiguration) (ws : List (List Int))
    (w : Nat) (hw : 1 ≤ w) (hlen : ∀ x ∈ ws, x.length = w) (hne : 1 ≤ ws.length) :
    ¬ processableSamplesCount ⟨[], c, []⟩ ws.flatten w < (w : Int) := by
  have hflat : ws.flatten.length = ws.length * w := flatten_length_uniform w ws hlen
  have hps : processableSamplesCount ⟨[], c, []⟩ ws.flatten w =
      ((ws.length : Int) * w) := by
    simp only [processableSamplesCount, processedSamplesCount, List.nil_append, hflat]
    push_cast
    simp
  rw [hps]
  push_neg
  have h1 : (1 : Int) * w ≤ (ws.length : Int) * w := by
    have : (1 : Int) ≤ (ws.length : Int) := by exact_mod_cast hne
    exact mul_le_mul_of_nonneg_right this (by positivity)
  omega

theorem silencesAtStart_cons_nonsilent (θ x : ℚ) (L : List ℚ) (hx : ¬ x < θ) :
    silencesAtStart θ (x :: L) = 0 := by
  unfold silencesAtStart
  simp [List.takeWhile_cons, hx]

theorem sandwichL_get (w a n t : Nat)
    (h : t < (List.replicate a ((w : ℚ)) ++
      (List.replicate n (0 : ℚ) ++ [((w : ℚ))])).length) :
    (List.replicate a ((w : ℚ)) ++
        (List.replicate n (0 : ℚ) ++ [((w : ℚ))])).get ⟨t, h⟩ =
      if a ≤ t ∧ t < a + n then 0 else ((w : ℚ)) := by
  rw [List.get_eq_getElem]
  by_cases h1 : t < a
  · rw [List.getElem_append_left (by simpa using h1)]
    rw [if_neg (by omega)]
    exact List.getElem_replicate ..
  · push_neg at h1
    rw [List.getElem_append_right (by simpa using h1)]
    by_cases h2 : t < a + n
    · rw [List.getElem_append_left (by simp; omega)]
      rw [if_pos ⟨h1, h2⟩]
      exact List.getElem_replicate ..
    · rw [List.getElem_append_right (by simp; omega)]
      rw [if_neg (by omega)]
      simp

theorem tailL_get (w a n t : Nat)
    (h : t < (List.replicate a ((w : ℚ)) ++ List.replicate n (0 : ℚ)).length) :
    (List.replicate a ((w : ℚ)) ++ List.replicate n (0 : ℚ)).get ⟨t, h⟩ =
      if a ≤ t then 0 else ((w : ℚ)) := by
  rw [List.get_eq_getElem]
  by_cases h1 : t < a
  · rw [List.getElem_append_left (by simpa using h1)]
    rw [if_neg (by omega)]
    exact List.getElem_replicate ..
  · push_neg at h1
    rw [List.getElem_append_right (by simpa using h1)]
    rw [if_pos h1]
    exact List.getElem_replicate ..

theorem middleLoop_sandwich (c : SilenceDetectorConfiguration)
    (hmin : 0 < c.SilenceMinDuration) (w a n : Nat) (hw : 1 ≤ w) (ha : 1 ≤ a)
    (S : List Int) :
    (middleLoop c 1 w
        (List.replicate a ((w : ℚ)) ++ (List.replicate n (0 : ℚ) ++ [((w : ℚ))])).length
        1 0
        ⟨List.replicate a ((w : ℚ)) ++ (List.replicate n (0 : ℚ) ++ [((w : ℚ))]),
          S, []⟩).validSamples =
      if (n : Int) * c.StepDuration ≥ c.SilenceMinDuration then [S.take (a * w)]
      else [] := by
  have hwq : ¬ ((w : ℚ) < 1) := by
    push_neg
    exact_mod_cast hw
  have hLlen : (List.replicate a ((w : ℚ)) ++
      (List.replicate n (0 : ℚ) ++ [((w : ℚ))])).length = a + n + 1 := by
    simp
    omega
  rw [hLlen]
  have hstep1 : middleLoop c 1 w (a + n + 1) 1 0
      ⟨List.replicate a ((w : ℚ)) ++ (List.replicate n (0 : ℚ) ++ [((w : ℚ))]), S, []⟩ =
      middleLoop c 1 w (a + n + 1) a 0
      ⟨List.replicate a ((w : ℚ)) ++ (List.replicate n (0 : ℚ) ++ [((w : ℚ))]), S, []⟩ := by
    have h1a : 1 + (a - 1) = a := by omega
    have := middleLoop_run_nonsilent c 1 w hmin (a - 1) (a + n + 1) 1
      ⟨List.replicate a ((w : ℚ)) ++ (List.replicate n (0 : ℚ) ++ [((w : ℚ))]), S, []⟩
      (by rw [hLlen]; omega) (by rw [hLlen]; omega)
      (by
        intro t h ht1 ht2
        rw [sandwichL_get w a n t h, if_neg (by omega)]
        exact hwq)
    rw [h1a] at this
    exact this
  have hstep2 : middleLoop c 1 w (a + n + 1) a 0
      ⟨List.replicate a ((w : ℚ)) ++ (List.replicate n (0 : ℚ) ++ [((w : ℚ))]), S, []⟩ =
      middleLoop c 1 w (a + n + 1) (a + n) n
      ⟨List.replicate a ((w : ℚ)) ++ (List.replicate n (0 : ℚ) ++ [((w : ℚ))]), S, []⟩ := by
    have := middleLoop_run_silent c 1 w n (a + n + 1) a 0
      ⟨List.replicate a ((w : ℚ)) ++ (List.replicate n (0 : ℚ) ++ [((w : ℚ))]), S, []⟩
      (by rw [hLlen]; omega) (by rw [hLlen]; omega)
      (by
        intro t h ht1 ht2
        rw [sandwichL_get w a n t h, if_pos ⟨ht1, ht2⟩]
        norm_num)
    simpa using this
  have hlt : a + n <
      (MiddleState.mk (List.replicate a ((w : ℚ)) ++
        (List.replicate n (0 : ℚ) ++ [((w : ℚ))])) S []).audioLevels.length := by
    rw [hLlen]
    omega
  have hns : ¬ (MiddleState.mk (List.replicate a ((w : ℚ)) ++
      (List.replicate n (0 : ℚ) ++ [((w : ℚ))])) S []).audioLevels.get
        ⟨a + n, hlt⟩ < 1 := by
    rw [sandwichL_get w a n (a + n) hlt, if_neg (by omega)]
    exact hwq
  have hstep3 := middleLoop_nonsilent c 1 w (a + n) (a + n) n
    ⟨List.replicate a ((w : ℚ)) ++ (List.replicate n (0 : ℚ) ++ [((w : ℚ))]), S, []⟩
    hlt hns
  rw [hstep1, hstep2, hstep3]
  by_cases hcond : (n : Int) * c.StepDuration ≥ c.SilenceMinDuration
  · have hproc : processSilencesInTheMiddle c w (a + n) n
        ⟨List.replicate a ((w : ℚ)) ++ (List.replicate n (0 : ℚ) ++ [((w : ℚ))]), S, []⟩ =
        ⟨(List.replicate a ((w : ℚ)) ++
          (List.replicate n (0 : ℚ) ++ [((w : ℚ))])).drop a,
          S.drop (a * w), [S.take (a * w)]⟩ := by
      unfold processSilencesInTheMiddle
      rw [if_pos hcond]
      have harith : a + n - n = a := by omega
      simp [harith]
    rw [hproc]
    have hend : ¬ (a + n + 1 <
        (MiddleState.mk ((List.replicate a ((w : ℚ)) ++
          (List.replicate n (0 : ℚ) ++ [((w : ℚ))])).drop a)
          (S.drop (a * w)) [S.take (a * w)]).audioLevels.length) := by
      simp
    rw [middleLoop_at_end c 1 w (a + n) (a + n + 1) 0 _ hend]
    rw [processSilencesInTheMiddle_zero c w (a + n + 1) _ hmin]
    rw [if_pos hcond]
  · have hproc : processSilencesInTheMiddle c w (a + n) n
        ⟨List.replicate a ((w : ℚ)) ++ (List.replicate n (0 : ℚ) ++ [((w : ℚ))]), S, []⟩ =
        ⟨List.replicate a ((w : ℚ)) ++ (List.replicate n (0 : ℚ) ++ [((w : ℚ))]),
          S, []⟩ := by
      unfold processSilencesInTheMiddle
      rw [if_neg hcond]
    rw [hproc]
    have hend : ¬ (a + n + 1 <
        (MiddleState.mk (List.replicate a ((w : ℚ)) ++
          (List.replicate n (0 : ℚ) ++ [((w : ℚ))])) S []).audioLevels.length) := by
      rw [hLlen]
      omega
    rw [middleLoop_at_end c 1 w (a + n) (a + n + 1) 0 _ hend]
    rw [processSilencesInTheMiddle_zero c w (a + n + 1) _ hmin]
    rw [if_neg hcond]

theorem middleLoop_tailRun (c : SilenceDetectorConfiguration)
    (hmin : 0 < c.SilenceMinDuration) (w a n : Nat) (hw : 1 ≤ w) (ha : 1 ≤ a)
    (S : List Int) :
    (middleLoop c 1 w
        (List.replicate a ((w : ℚ)) ++ List.replicate n (0 : ℚ)).length 1 0
        ⟨List.replicate a ((w : ℚ)) ++ List.replicate n (0 : ℚ), S, []⟩).validSamples =
      if (n : Int) * c.StepDuration ≥ c.SilenceMinDuration then [S.take (a * w)]
      else [] := by
  have hwq : ¬ ((w : ℚ) < 1) := by
    push_neg
    exact_mod_cast hw
  have hLlen : (List.replicate a ((w : ℚ)) ++ List.replicate n (0 : ℚ)).length =
      a + n := by
    simp
  rw [hLlen]
  have hstep1 : middleLoop c 1 w (a + n) 1 0
      ⟨List.replicate a ((w : ℚ)) ++ List.replicate n (0 : ℚ), S, []⟩ =
      middleLoop c 1 w (a + n) a 0
      ⟨List.replicate a ((w : ℚ)) ++ List.replicate n (0 : ℚ), S, []⟩ := by
    have h1a : 1 + (a - 1) = a := by omega
    have := middleLoop_run_nonsilent c 1 w hmin (a - 1) (a + n) 1
      ⟨List.replicate a ((w : ℚ)) ++ List.replicate n (0 : ℚ), S, []⟩
      (by rw [hLlen]; omega) (by rw [hLlen]; omega)
      (by
        intro t h ht1 ht2
        rw [tailL_get w a n t h, if_neg (by omega)]
        exact hwq)
    rw [h1a] at this
    exact this
  have hstep2 : middleLoop c 1 w (a + n) a 0
      ⟨List.replicate a ((w : ℚ)) ++ List.replicate n (0 : ℚ), S, []⟩ =
      middleLoop c 1 w (a + n) (a + n) n
      ⟨List.replicate a ((w : ℚ)) ++ List.replicate n (0 : ℚ), S, []⟩ := by
    have := middleLoop_run_silent c 1 w n (a + n) a 0
      ⟨List.replicate a ((w : ℚ)) ++ List.replicate n (0 : ℚ), S, []⟩
      (by rw [hLlen]; omega) (by rw [hLlen])
      (by
        intro t h ht1 ht2
        rw [tailL_get w a n t h, if_pos ht1]
        norm_num)
    simpa using this
  have hend : ¬ (a + n <
      (MiddleState.mk (List.replicate a ((w : ℚ)) ++ List.replicate n (0 : ℚ))
        S []).audioLevels.length) := by
    rw [hLlen]
    omega
  rw [hstep1, hstep2, middleLoop_at_end c 1 w (a + n) (a + n) n _ hend]
  by_cases hcond : (n : Int) * c.StepDuration ≥ c.SilenceMinDuration
  · unfold processSilencesInTheMiddle
    rw [if_pos hcond, if_pos hcond]
    have harith : a + n - n = a := by omega
    simp [harith]
  · unfold processSilencesInTheMiddle
    rw [if_neg hcond, if_neg hcond]

/-- C6: Minimum-duration gate.  On a fresh detector with positive configured
minimum silence duration, window size `w ≥ 1` and threshold 1, a buffer of
`a ≥ 1` non-silent windows followed by a run of `n` silent windows triggers
a split — whether the run ends at a non-silent window (`sandwichChunk`) or
at the end of the buffer (`tailRunChunk`) — exactly when
`n * step_duration ≥ silence_min_duration`; in particular the smallest such
`n` triggers and any shorter run never does on its own. -/
theorem claim6_min_duration_gate (c : SilenceDetectorConfiguration)
    (hmin : 0 < c.SilenceMinDuration) (w a n : Nat) (hw : 1 ≤ w) (ha : 1 ≤ a) :
    (((⟨[], c, []⟩ : SilenceDetector).Add sumLevel (sandwichChunk w a n) w 1).2 ≠ [] ↔
        (n : Int) * c.StepDuration ≥ c.SilenceMinDuration) ∧
      (((⟨[], c, []⟩ : SilenceDetector).Add sumLevel (tailRunChunk w a n) w 1).2 ≠ [] ↔
        (n : Int) * c.StepDuration ≥ c.SilenceMinDuration) := by
  have hwq : ¬ ((w : ℚ) < 1) := by
    push_neg
    exact_mod_cast hw
  constructor
  · -- run ended by a non-silent window
    have huni : ∀ x ∈ sandwichWindows w a n, x.length = w := by
      intro x hx
      unfold sandwichWindows at hx
      simp only [List.mem_append, List.mem_replicate, List.mem_singleton] at hx
      rcases hx with (⟨_, hx⟩ | ⟨_, hx⟩) | hx <;> subst hx <;>
        simp [loudWindow, silentWindow]
    have hmap : (sandwichWindows w a n).map sumLevel =
        List.replicate a ((w : ℚ)) ++ (List.replicate n (0 : ℚ) ++ [((w : ℚ))]) := by
      unfold sandwichWindows
      simp [List.map_append, List.map_replicate, sumLevel_loudWindow,
        sumLevel_silentWindow, List.append_assoc]
    have hlev : levelsAfterCompute sumLevel ⟨[], c, []⟩ (sandwichChunk w a n) w =
        List.replicate a ((w : ℚ)) ++ (List.replicate n (0 : ℚ) ++ [((w : ℚ))]) := by
      have := levelsAfterCompute_fresh sumLevel c (sandwichWindows w a n) w hw huni
      rw [hmap] at this
      exact this
    have hguard : ¬ processableSamplesCount ⟨[], c, []⟩ (sandwichChunk w a n) w <
        (w : Int) := by
      exact fresh_guard c (sandwichWindows w a n) w hw huni
        (by
          unfold sandwichWindows
          simp only [List.length_append, List.length_replicate, List.length_cons,
            List.length_nil]
          omega)
    have hk0 : silencesAtStart 1
        (levelsAfterCompute sumLevel ⟨[], c, []⟩ (sandwichChunk w a n) w) = 0 := by
      rw [hlev]
      obtain ⟨a', rfl⟩ : ∃ a', a = a' + 1 := ⟨a - 1, by omega⟩
      rw [List.replicate_succ, List.cons_append]
      exact silencesAtStart_cons_nonsilent 1 _ _ hwq
    have hpr : levelsAfterPrune sumLevel ⟨[], c, []⟩ (sandwichChunk w a n) w 1 =
        List.replicate a ((w : ℚ)) ++ (List.replicate n (0 : ℚ) ++ [((w : ℚ))]) := by
      unfold levelsAfterPrune
      rw [hk0, if_neg (by omega)]
      exact hlev
    have hspr : samplesAfterPrune sumLevel ⟨[], c, []⟩ (sandwichChunk w a n) w 1 =
        sandwichChunk w a n := by
      unfold samplesAfterPrune
      rw [hk0, if_neg (by omega)]
      rfl
    have hlong : ¬ (levelsAfterPrune sumLevel ⟨[], c, []⟩
        (sandwichChunk w a n) w 1).length ≤ 1 := by
      rw [hpr]
      simp only [List.length_append, List.length_replicate, List.length_cons,
        List.length_nil]
      omega
    have hAdd : ((⟨[], c, []⟩ : SilenceDetector).Add sumLevel (sandwichChunk w a n) w 1).2 =
        (middleLoop c 1 w
          (levelsAfterPrune sumLevel ⟨[], c, []⟩ (sandwichChunk w a n) w 1).length 1 0
          ⟨levelsAfterPrune sumLevel ⟨[], c, []⟩ (sandwichChunk w a n) w 1,
            samplesAfterPrune sumLevel ⟨[], c, []⟩ (sandwichChunk w a n) w 1,
            []⟩).validSamples := by
      unfold SilenceDetector.Add
      rw [AddFull_of_main sumLevel ⟨[], c, []⟩ (sandwichChunk w a n) w 1 hguard hlong]
    rw [hAdd, hpr, hspr, middleLoop_sandwich c hmin w a n hw ha (sandwichChunk w a n)]
    by_cases hcond : (n : Int) * c.StepDuration ≥ c.SilenceMinDuration
    · simp [hcond]
    · simp [hcond]
  · -- run ended by the end of the buffer
    have huni : ∀ x ∈ tailRunWindows w a n, x.length = w := by
      intro x hx
      unfold tailRunWindows at hx
      simp only [List.mem_append, List.mem_replicate] at hx
      rcases hx with ⟨_, hx⟩ | ⟨_, hx⟩ <;> subst hx <;>
        simp [loudWindow, silentWindow]
    have hmap : (tailRunWindows w a n).map sumLevel =
        List.replicate a ((w : ℚ)) ++ List.replicate n (0 : ℚ) := by
      unfold tailRunWindows
      simp [List.map_append, List.map_replicate, sumLevel_loudWindow,
        sumLevel_silentWindow]
    have hlev : levelsAfterCompute sumLevel ⟨[], c, []⟩ (tailRunChunk w a n) w =
        List.replicate a ((w : ℚ)) ++ List.replicate n (0 : ℚ) := by
      have := levelsAfterCompute_fresh sumLevel c (tailRunWindows w a n) w hw huni
      rw [hmap] at this
      exact this
    have hguard : ¬ processableSamplesCount ⟨[], c, []⟩ (tailRunChunk w a n) w <
        (w : Int) := by
      exact fresh_guard c (tailRunWindows w a n) w hw huni
        (by
          unfold tailRunWindows
          simp only [List.length_append, List.length_replicate]
          omega)
    have hk0 : silencesAtStart 1
        (levelsAfterCompute sumLevel ⟨[], c, []⟩ (tailRunChunk w a n) w) = 0 := by
      rw [hlev]
      obtain ⟨a', rfl⟩ : ∃ a', a = a' + 1 := ⟨a - 1, by omega⟩
      rw [List.replicate_succ, List.cons_append]
      exact silencesAtStart_cons_nonsilent 1 _ _ hwq
    have hpr : levelsAfterPrune sumLevel ⟨[], c, []⟩ (tailRunChunk w a n) w 1 =
        List.replicate a ((w : ℚ)) ++ List.replicate n (0 : ℚ) := by
      unfold levelsAfterPrune
      rw [hk0, if_neg (by omega)]
      exact hlev
    have hspr : samplesAfterPrune sumLevel ⟨[], c, []⟩ (tailRunChunk w a n) w 1 =
        tailRunChunk w a n := by
      unfold samplesAfterPrune
      rw [hk0, if_neg (by omega)]
      rfl
    by_cases hshort : a + n ≤ 1
    · have hn0 : n = 0 := by omega
      have hlen1 : (levelsAfterPrune sumLevel ⟨[], c, []⟩
          (tailRunChunk w a n) w 1).length ≤ 1 := by
        rw [hpr]
        simp only [List.length_append, List.length_replicate]
        omega
      have hAdd : ((⟨[], c, []⟩ : SilenceDetector).Add sumLevel
          (tailRunChunk w a n) w 1).2 = [] := by
        unfold SilenceDetector.Add
        rw [AddFull_of_short sumLevel ⟨[], c, []⟩ (tailRunChunk w a n) w 1 hguard hlen1]
      rw [hAdd]
      subst hn0
      simp only [Nat.cast_zero, zero_mul, ge_iff_le]
      constructor
      · intro hne
        exact absurd rfl hne
      · intro hle
        omega
    · have hlong : ¬ (levelsAfterPrune sumLevel ⟨[], c, []⟩
          (tailRunChunk w a n) w 1).length ≤ 1 := by
        rw [hpr]
        simp only [List.length_append, List.length_replicate]
        omega
      have hAdd : ((⟨[], c, []⟩ : SilenceDetector).Add sumLevel
          (tailRunChunk w a n) w 1).2 =
          (middleLoop c 1 w
            (levelsAfterPrune sumLevel ⟨[], c, []⟩ (tailRunChunk w a n) w 1).length 1 0
            ⟨levelsAfterPrune sumLevel ⟨[], c, []⟩ (tailRunChunk w a n) w 1,
              samplesAfterPrune sumLevel ⟨[], c, []⟩ (tailRunChunk w a n) w 1,
              []⟩).validSamples := by
        unfold SilenceDetector.Add
        rw [AddFull_of_main sumLevel ⟨[], c, []⟩ (tailRunChunk w a n) w 1 hguard hlong]
      rw [hAdd, hpr, hspr, middleLoop_tailRun c hmin w a n hw ha (tailRunChunk w a n)]
      by_cases hcond : (n : Int) * c.StepDuration ≥ c.SilenceMinDuration
      · simp [hcond]
      · simp [hcond]

theorem claim6_min_duration_gate_witness :
    (0 : Int) < gateConfig.SilenceMinDuration ∧ 1 ≤ 2 ∧ 1 ≤ 1 ∧
      ((((⟨[], gateConfig, []⟩ : SilenceDetector).Add sumLevel
          (sandwichChunk 2 1 3) 2 1).2 ≠ [] ↔
        (3 : Int) * gateConfig.StepDuration ≥ gateConfig.SilenceMinDuration) ∧
      (((⟨[], gateConfig, []⟩ : SilenceDetector).Add sumLevel
          (tailRunChunk 2 1 3) 2 1).2 ≠ [] ↔
        (3 : Int) * gateConfig.StepDuration ≥ gateConfig.SilenceMinDuration)) :=
  ⟨by decide, by decide, by decide,
    claim6_min_duration_gate gateConfig (by decide) 2 1 3 (by decide) (by decide)⟩
